import Mathlib

/-!
Verification of the directory-listing utility (`ls-v1.x.0.c` iterations).

Filenames are modelled as `List Char` (one `Char` per byte of the C string,
the terminating NUL excluded).  `st_mode` values are modelled as `Nat`; the
POSIX format-test macros (`S_ISDIR` …) are translated bit-for-bit.  Machine
`int` truncation is made explicit with `wrap32`.  External effects (readdir,
stat) are passed in as explicit data.
-/

namespace Ls

/-- A filename: the bytes of a C string (NUL excluded). -/
abbrev Name := List Char

/-! ## st_mode bit tests (from `<sys/stat.h>`, as used by the C sources) -/

/-- `S_ISDIR(m)`: `(m & 0xF000) == 0x4000`. -/
def S_ISDIR (m : Nat) : Bool := m &&& 0xF000 == 0x4000

/-- `S_ISLNK(m)`: `(m & 0xF000) == 0xA000`. -/
def S_ISLNK (m : Nat) : Bool := m &&& 0xF000 == 0xA000

/-- `S_ISCHR(m)`: `(m & 0xF000) == 0x2000`. -/
def S_ISCHR (m : Nat) : Bool := m &&& 0xF000 == 0x2000

/-- `S_ISBLK(m)`: `(m & 0xF000) == 0x6000`. -/
def S_ISBLK (m : Nat) : Bool := m &&& 0xF000 == 0x6000

/-- `S_ISFIFO(m)`: `(m & 0xF000) == 0x1000`. -/
def S_ISFIFO (m : Nat) : Bool := m &&& 0xF000 == 0x1000

/-- `S_ISSOCK(m)`: `(m & 0xF000) == 0xC000`. -/
def S_ISSOCK (m : Nat) : Bool := m &&& 0xF000 == 0xC000

/-! ## Long-listing type character

`src/src/ls-v1.3.0.c` (first unit, `print_long_listing`, lines 94-115) builds
the leading type character with the full chain of format tests, while
`src/src/ls-v1.5.0.c` (`print_long_listing`, line 120) and the v1.4.0 units
print only `S_ISDIR(st.st_mode) ? "d" : "-"`.
-/

/-- Leading type character of `print_long_listing` in the v1.3.0 unit:
`d`/`l`/`c`/`b`/`p`/`s`, defaulting to `-`. -/
def typeChar_v130 (m : Nat) : Char :=
  if S_ISDIR m then 'd'
  else if S_ISLNK m then 'l'
  else if S_ISCHR m then 'c'
  else if S_ISBLK m then 'b'
  else if S_ISFIFO m then 'p'
  else if S_ISSOCK m then 's'
  else '-'

/-- Leading type character of `print_long_listing` in `ls-v1.5.0.c` (and the
v1.4.0 and v1.1.0/v1.2.0 units): `(S_ISDIR(st.st_mode)) ? "d" : "-"`. -/
def typeChar_v150 (m : Nat) : Char :=
  if S_ISDIR m then 'd' else '-'

/-- The type character the claim (and spec §4.3) prescribes for a mode whose
format nibble is `fmt`. -/
def claimedTypeChar (fmt : Nat) : Char :=
  if fmt = 4 then 'd'
  else if fmt = 10 then 'l'
  else if fmt = 2 then 'c'
  else if fmt = 6 then 'b'
  else if fmt = 1 then 'p'
  else if fmt = 12 then 's'
  else '-'

/-! ## Exit status

`src/unnamed/part_000` (ls-v1.1.0): `opendir` failure makes `main` return 1.
`src/src/ls-v1.5.0.c` lines 215-217: `read_filenames` returns 0 on `opendir`
failure and `main` then executes `if (n <= 0) return 0;` — every path of the
v1.3.0/v1.4.0/v1.5.0 `main`s returns 0.

The environment is abstracted as `Option` of the directory stream: `none`
means `opendir` failed. -/

/-- `d_name[0] == '.'` test of the read loops: an entry is kept when its first
byte is not `'.'` (an empty name has first byte NUL and is kept). -/
def visible (s : Name) : Bool :=
  match s with
  | [] => true
  | c :: _ => c != '.'

/-- `MAX_FILES` from the C sources. -/
def MAX_FILES : Nat := 4096

/-- The `readdir` loop of `read_filenames` (all units):
`while ((entry = readdir(dir)) != NULL && count < MAX_FILES)`, skipping
entries whose name starts with `'.'`, appending the rest. -/
def collectLoop : List Name → Nat → List Name
  | [], _ => []
  | e :: rest, count =>
    if count < MAX_FILES then
      if visible e then e :: collectLoop rest (count + 1)
      else collectLoop rest count
    else []

/-- Insertion step of the comparison sort standing in for `qsort`. -/
def insertCmp (le : α → α → Bool) (x : α) : List α → List α
  | [] => [x]
  | y :: ys => if le x y then x :: y :: ys else y :: insertCmp le x ys

/-- `qsort` modelled as an insertion sort over the same comparator.  The C
standard leaves `qsort`'s output order among comparator-equal elements
unspecified; every claim proved below depends only on the output being a
permutation ordered by the comparator. -/
def sortCmp (le : α → α → Bool) : List α → List α
  | [] => []
  | x :: xs => insertCmp le x (sortCmp le xs)

/-- Exit status of `main` in `ls-v1.5.0.c`: `read_filenames` returns count 0
when `opendir` fails, `main` returns 0 when `n <= 0`, and returns 0 after
rendering otherwise. -/
def mainExit_v150 (dir : Option (List Name)) : Nat :=
  let n : Nat :=
    match dir with
    | none => 0
    | some stream => (collectLoop stream 0).length
  if n ≤ 0 then 0 else 0

/-- Exit status of `main` in `ls-v1.1.0` (`src/unnamed/part_000`):
`if (!dir) { perror("opendir"); return 1; }`, else 0. -/
def mainExit_v110 (dir : Option (List Name)) : Nat :=
  match dir with
  | none => 1
  | some _ => 0

/-! ## C string helpers -/

/-- Does `pat` occur at the very beginning of `s`?  (The inner loop of
`strstr`.) -/
def begMatch : Name → Name → Bool
  | [], _ => true
  | _ :: _, [] => false
  | p :: ps, c :: cs => p == c && begMatch ps cs

/-- `strstr(s, pat) != NULL`: `pat` occurs somewhere inside `s`. -/
def hasSub (pat : Name) : Name → Bool
  | [] => begMatch pat []
  | c :: cs => begMatch pat (c :: cs) || hasSub pat cs

/-- Spec-side predicate (from the claim's words, for comparison with the
source's `strstr` use): `s` ends with `pat`. -/
def endsWith (s pat : Name) : Bool := begMatch pat.reverse s.reverse

/-- `strcmp`: byte-wise comparison, returning the difference of the first
differing bytes (0 for equal strings, the sign orders lexicographically). -/
def strcmp : Name → Name → Int
  | [], [] => 0
  | [], _ :: _ => -1
  | _ :: _, [] => 1
  | a :: as, b :: bs => if a = b then strcmp as bs else (a.toNat : Int) - b.toNat

/-- `tolower` over the ASCII range, as `strcasecmp` folds bytes. -/
def toLowerByte (c : Char) : Char :=
  if 'A' ≤ c ∧ c ≤ 'Z' then Char.ofNat (c.toNat + 32) else c

/-- `strcasecmp`: byte-wise comparison after lower-case folding. -/
def strcasecmp : Name → Name → Int
  | [], [] => 0
  | [], _ :: _ => -1
  | _ :: _, [] => 1
  | a :: as, b :: bs =>
    if toLowerByte a = toLowerByte b then strcasecmp as bs
    else ((toLowerByte a).toNat : Int) - (toLowerByte b).toNat

/-- `read_filenames` of `ls-v1.5.0.c` (lines 74-101): collect up to
`MAX_FILES` visible names from the `readdir` stream, then
`qsort(..., cmp_names)` with `cmp_names = strcasecmp`. -/
def read_filenames (stream : List Name) : List Name :=
  sortCmp (fun a b => decide (strcasecmp a b ≤ 0)) (collectLoop stream 0)

/-! ## Colorizer (`get_color` of `ls-v1.5.0.c`, lines 50-71) -/

/-- The six string constants `get_color` can return, as an enumeration
(`RESET_COLOR`, `BLUE_COLOR`, `MAGENTA_COLOR`, `REVERSE_VIDEO`, `GREEN_COLOR`,
`RED_COLOR`). -/
inductive ColorTag where
  | reset
  | blue
  | magenta
  | reverseVideo
  | green
  | red
deriving DecidableEq

/-- The extension test of `get_color`, exactly as the C source writes it:
`strstr(name, ".tar") || strstr(name, ".gz") || strstr(name, ".zip") ||
strstr(name, ".tgz")` — a substring test, not a suffix test. -/
def archiveSub (name : Name) : Bool :=
  hasSub ['.', 't', 'a', 'r'] name || hasSub ['.', 'g', 'z'] name ||
  hasSub ['.', 'z', 'i', 'p'] name || hasSub ['.', 't', 'g', 'z'] name

/-- `get_color(path, name)` of `ls-v1.5.0.c`: `lstat` the entry (failure —
`none` — yields the reset tag), then the if/else chain: directory → blue,
symlink → magenta, char/block device or socket → reverse video, any execute
bit (`S_IXUSR|S_IXGRP|S_IXOTH` = 0o111) → green, `strstr` hit for `.tar`,
`.gz`, `.zip` or `.tgz` → red, otherwise reset. -/
def get_color (st : Option Nat) (name : Name) : ColorTag :=
  match st with
  | none => .reset
  | some m =>
    if S_ISDIR m then .blue
    else if S_ISLNK m then .magenta
    else if S_ISCHR m || S_ISBLK m || S_ISSOCK m then .reverseVideo
    else if m &&& 0o111 != 0 then .green
    else if archiveSub name then .red
    else .reset

/-- Any of the four archive patterns is a suffix (the claim's wording). -/
def archiveSuffix (name : Name) : Bool :=
  endsWith name ['.', 't', 'a', 'r'] || endsWith name ['.', 'g', 'z'] ||
  endsWith name ['.', 'z', 'i', 'p'] || endsWith name ['.', 't', 'g', 'z']

/-! ## mtime comparator (`cmp_mtime`, second unit of `ls-v1.4.0.c`) -/

/-- An entry as `cmp_mtime` sees it: a name and the `st_mtime` the `stat`
call yields for it (`time_t` seconds, a 64-bit signed integer on the target;
modelled as `Int`, the stat call assumed to succeed). -/
structure FileEntry where
  name : Name
  mtime : Int
deriving DecidableEq

/-- Conversion of a 64-bit difference to the C `int` return type: reduce
modulo `2^32` into `[-2^31, 2^31)` (the usual two's-complement narrowing). -/
def wrap32 (x : Int) : Int := (x + 2 ^ 31) % 2 ^ 32 - 2 ^ 31

/-- `cmp_mtime(a, b)` of `ls-v1.4.0.c` lines 267-274: equal timestamps fall
back to `strcmp` on the names; otherwise the `time_t` difference
`sb.st_mtime - sa.st_mtime` is returned through the `int` return type,
narrowing it to 32 bits. -/
def cmp_mtime (a b : FileEntry) : Int :=
  if a.mtime = b.mtime then strcmp a.name b.name
  else wrap32 (b.mtime - a.mtime)

/-! ## Layout engine

`print_down_then_across` appears in `ls-v1.4.0.c` (second unit, lines
350-382) and `ls-v1.5.0.c` (lines 148-174); the v1.5.0 version additionally
wraps every name in a color tag and a reset tag but emits the same names,
field padding, separators and newlines.  `print_horizontal_across` appears in
`ls-v1.4.0.c` lines 385-408 (same accumulator loop in v1.5.0 lines 177-197).
-/

/-- `printf("%-*s", w, s)`: left-justify `s` in a field of width `w` —
trailing spaces are added when `s` is shorter, nothing is ever cut off. -/
def padName (w : Nat) (s : Name) : Name := s ++ List.replicate (w - s.length) ' '

/-- The `maxlen` scan: `if (strlen(names[i]) > maxlen) maxlen = strlen(...)`. -/
def maxNameLen (names : List Name) : Nat :=
  names.foldl (fun m s => if s.length > m then s.length else m) 0

/-- `COL_PADDING` from the C sources. -/
def COL_PADDING : Nat := 2

/-- Grid geometry of `print_down_then_across` (v1.4.0/v1.5.0): column width
`maxlen + COL_PADDING` (with the dead `<= 0` clamp), `cols` from the terminal
width clamped to `[1, n]`, `rows = ceil(n / cols)`, then the single-row
refinement `if (rows == 1 && n > 3) { rows = (n+1)/2; cols = ceil(n/rows); }`.
Returns `(rows, cols)`. -/
def gridDA (termWidth n maxlen : Nat) : Nat × Nat :=
  let colWidth := if maxlen + COL_PADDING ≤ 0 then 1 else maxlen + COL_PADDING
  let cols0 := termWidth / colWidth
  let cols1 := if cols0 < 1 then 1 else cols0
  let cols2 := if cols1 > n then n else cols1
  let rows0 := (n + cols2 - 1) / cols2
  if rows0 = 1 ∧ n > 3 then
    let rows1 := (n + 1) / 2
    (rows1, (n + rows1 - 1) / rows1)
  else (rows0, cols2)

/-- The `rows` component of the computed grid. -/
def gridRows (termWidth n maxlen : Nat) : Nat := (gridDA termWidth n maxlen).1

/-- The `cols` component of the computed grid. -/
def gridCols (termWidth n maxlen : Nat) : Nat := (gridDA termWidth n maxlen).2

/-- One cell of the down-then-across output, exactly as the inner loop body
emits it: the padded name when `idx = r + c * rows < n` (nothing at all
otherwise), followed by `COL_PADDING` separator spaces whenever
`c < cols - 1` — the separator is outside the `idx < n` test. -/
def renderDACell (names : List Name) (maxlen rows cols n r c : Nat) : List Char :=
  (if r + c * rows < n then padName maxlen (names.getD (r + c * rows) []) else []) ++
  (if c < cols - 1 then List.replicate COL_PADDING ' ' else [])

/-- One output line (grid row `r`) of `print_down_then_across`. -/
def renderDARow (names : List Name) (maxlen rows cols n r : Nat) : List Char :=
  (List.range cols).flatMap (renderDACell names maxlen rows cols n r)

/-- `print_down_then_across`: one line per grid row (`putchar('\n')` ends
each row); an empty name list produces no output. -/
def print_down_then_across (names : List Name) (termWidth : Nat) : List (List Char) :=
  if names.length = 0 then []
  else
    let n := names.length
    let maxlen := maxNameLen names
    let rows := gridRows termWidth n maxlen
    let cols := gridCols termWidth n maxlen
    (List.range rows).map (renderDARow names maxlen rows cols n)

/-- The loop of `print_horizontal_across`: before each entry, wrap to a new
line when `current_width + col_width > term_width`; afterwards
`current_width += col_width`. -/
def haLoop (maxlen colWidth termWidth : Nat) : List Name → Nat → List Char
  | [], _ => []
  | s :: rest, cur =>
    if cur + colWidth > termWidth then
      '\n' :: (padName maxlen s ++ haLoop maxlen colWidth termWidth rest colWidth)
    else
      padName maxlen s ++ haLoop maxlen colWidth termWidth rest (cur + colWidth)

/-- `print_horizontal_across`: the emitted character stream (a final
`putchar('\n')` included); an empty name list produces no output. -/
def print_horizontal_across (names : List Name) (termWidth : Nat) : List Char :=
  if names.length = 0 then []
  else
    let maxlen := maxNameLen names
    let colWidth := if maxlen + COL_PADDING ≤ 0 then 1 else maxlen + COL_PADDING
    haLoop maxlen colWidth termWidth names 0 ++ ['\n']

/-- The default display mode: `printf("%s\n", names[i])` for each name —
one line per name. -/
def print_simple_listing (names : List Name) : List (List Char) := names

/-- Split an emitted character stream into lines: `'\n'` terminates a line,
a trailing fragment without a newline is a final line of its own, and the
empty stream has no lines. -/
def splitLines : List Char → List (List Char)
  | [] => []
  | c :: cs =>
    if c = '\n' then [] :: splitLines cs
    else
      match splitLines cs with
      | [] => [[c]]
      | l :: ls => (c :: l) :: ls

/-- Reading the down-then-across grid column-major: for each column `c`
(left to right), the indices `r + c * rows` of its filled cells, top to
bottom — the same `idx < n` fill test as `renderDACell`. -/
def downAcrossIndices (rows cols n : Nat) : List Nat :=
  (List.range cols).flatMap (fun c =>
    ((List.range rows).map (fun r => r + c * rows)).filter (fun i => decide (i < n)))

/-! ## Grid lemmas -/

theorem ceil_mul_ge (n c : Nat) (hn : 1 ≤ n) (hc : 0 < c) :
    n ≤ ((n + c - 1) / c) * c := by
  have h1 : n + c - 1 = (n - 1) + c := by omega
  rw [h1, Nat.add_div_right _ hc]
  have h6 : (n - 1) < ((n - 1) / c + 1) * c :=
    (Nat.div_lt_iff_lt_mul hc).mp (Nat.lt_succ_self _)
  have h7 : n - 1 + 1 = n := by omega
  calc n = n - 1 + 1 := h7.symm
    _ ≤ ((n - 1) / c + 1) * c := Nat.succ_le_of_lt h6

theorem gridDA_bounds (tw n maxlen : Nat) (hn : 1 ≤ n) :
    0 < gridRows tw n maxlen ∧ 0 < gridCols tw n maxlen ∧
    n ≤ gridRows tw n maxlen * gridCols tw n maxlen := by
  unfold gridRows gridCols gridDA
  have hcw : ¬ (maxlen + COL_PADDING ≤ 0) := by simp [COL_PADDING]
  simp only [hcw, if_false]
  set cols0 := tw / (maxlen + COL_PADDING) with hc0
  set cols1 := if cols0 < 1 then 1 else cols0 with hc1
  have h1 : 1 ≤ cols1 := by
    rw [hc1]; split <;> omega
  set cols2 := if cols1 > n then n else cols1 with hc2
  have h2 : 1 ≤ cols2 := by
    rw [hc2]; split <;> omega
  set rows0 := (n + cols2 - 1) / cols2 with hr0
  by_cases hb : rows0 = 1 ∧ n > 3
  · rw [if_pos hb]
    set rows1 := (n + 1) / 2 with hr1
    have h3 : 1 ≤ rows1 := by
      rw [hr1]
      exact (Nat.one_le_div_iff (by omega)).mpr (by omega)
    refine ⟨h3, ?_, ?_⟩
    · exact (Nat.one_le_div_iff h3).mpr (by omega)
    · calc n ≤ ((n + rows1 - 1) / rows1) * rows1 := ceil_mul_ge n rows1 hn h3
        _ = rows1 * ((n + rows1 - 1) / rows1) := Nat.mul_comm _ _
  · rw [if_neg hb]
    refine ⟨?_, h2, ?_⟩
    · exact (Nat.one_le_div_iff h2).mpr (by omega)
    · exact ceil_mul_ge n cols2 hn h2

theorem filter_flatMap_comm (l : List α) (f : α → List β) (p : β → Bool) :
    (l.flatMap f).filter p = l.flatMap fun a => (f a).filter p := by
  induction l with
  | nil => simp
  | cons a t ih => simp [List.flatMap_cons, List.filter_append, ih]

theorem flatMap_range_full (rows cols : Nat) :
    ((List.range cols).flatMap fun c => (List.range rows).map fun r => r + c * rows) =
      List.range (rows * cols) := by
  induction cols with
  | zero => simp
  | succ k ih =>
    rw [List.range_succ, List.flatMap_append, ih, Nat.mul_succ, List.range_add]
    congr 1
    simp only [List.flatMap_cons, List.flatMap_nil, List.append_nil]
    refine List.map_congr_left fun a _ => ?_
    ring

theorem filter_lt_range (k m : Nat) (h : m ≤ k) :
    (List.range k).filter (fun i => decide (i < m)) = List.range m := by
  induction k with
  | zero =>
    have hm : m = 0 := by omega
    simp [hm]
  | succ k ih =>
    rw [List.range_succ, List.filter_append]
    by_cases hm : m ≤ k
    · rw [ih hm]
      have hk : ¬ (k < m) := by omega
      simp [hk]
    · have hmk : m = k + 1 := by omega
      subst hmk
      have h1 : (List.range k).filter (fun i => decide (i < k + 1)) = List.range k := by
        refine List.filter_eq_self.mpr fun a ha => ?_
        have := List.mem_range.mp ha
        simp only [decide_eq_true_eq]
        omega
      rw [h1]
      have hk : k < k + 1 := Nat.lt_succ_self k
      simp [List.range_succ, hk]

theorem dai_eq_range (rows cols n : Nat) (h : n ≤ rows * cols) :
    downAcrossIndices rows cols n = List.range n := by
  unfold downAcrossIndices
  rw [← filter_flatMap_comm, flatMap_range_full, filter_lt_range _ _ h]

theorem cell_index_inj (rows : Nat) (hr : 0 < rows) {r c r' c' : Nat}
    (h1 : r < rows) (h2 : r' < rows) (heq : r + c * rows = r' + c' * rows) :
    r = r' ∧ c = c' := by
  have e1 : (r + c * rows) % rows = r := by
    rw [Nat.add_mul_mod_self_right, Nat.mod_eq_of_lt h1]
  have e2 : (r' + c' * rows) % rows = r' := by
    rw [Nat.add_mul_mod_self_right, Nat.mod_eq_of_lt h2]
  have e3 : (r + c * rows) / rows = c := by
    rw [Nat.add_mul_div_right _ _ hr, Nat.div_eq_of_lt h1, Nat.zero_add]
  have e4 : (r' + c' * rows) / rows = c' := by
    rw [Nat.add_mul_div_right _ _ hr, Nat.div_eq_of_lt h2, Nat.zero_add]
  exact ⟨by rw [← e1, heq, e2], by rw [← e3, heq, e4]⟩

theorem map_getD_range (l : List α) (d : α) :
    (List.range l.length).map (fun i => l.getD i d) = l := by
  induction l with
  | nil => simp
  | cons a t ih =>
    rw [List.length_cons, List.range_succ_eq_map, List.map_cons, List.map_map]
    have hcomp : ((fun i => (a :: t).getD i d) ∘ Nat.succ) = fun i => t.getD i d := by
      funext i
      simp [List.getD_cons_succ]
    rw [hcomp, ih]
    simp

/-! ## Theorem for C1 -/

/-- C1: for any non-empty name list and its computed grid, the cell→index
map `idx = r + c * rows` is injective on grid cells, reading the grid
column-major yields exactly the indices `0 .. n-1` in order, and mapping
those indices through the name list recovers the original sequence. -/
theorem c1_down_across (names : List Name) (termWidth : Nat) (h : names ≠ []) :
    downAcrossIndices (gridRows termWidth names.length (maxNameLen names))
        (gridCols termWidth names.length (maxNameLen names)) names.length =
      List.range names.length ∧
    (∀ r c r' c', r < gridRows termWidth names.length (maxNameLen names) →
      r' < gridRows termWidth names.length (maxNameLen names) →
      r + c * gridRows termWidth names.length (maxNameLen names) =
        r' + c' * gridRows termWidth names.length (maxNameLen names) →
      r = r' ∧ c = c') ∧
    (downAcrossIndices (gridRows termWidth names.length (maxNameLen names))
        (gridCols termWidth names.length (maxNameLen names)) names.length).map
      (fun i => names.getD i []) = names := by
  have hn : 1 ≤ names.length := List.length_pos.mpr h
  obtain ⟨hr, hc, hbound⟩ := gridDA_bounds termWidth names.length (maxNameLen names) hn
  refine ⟨dai_eq_range _ _ _ hbound, ?_, ?_⟩
  · intro r c r' c' h1 h2 heq
    exact cell_index_inj _ hr h1 h2 heq
  · rw [dai_eq_range _ _ _ hbound, map_getD_range]

/-- Sample listing (five two-character names, the terminal 80 columns wide):
the grid is 3 rows × 2 columns. -/
def exampleNames5 : List Name :=
  [['a', 'a'], ['b', 'b'], ['c', 'c'], ['d', 'd'], ['e', 'e']]

/-- Witness for `c1_down_across` at `exampleNames5`, width 80. -/
theorem c1_down_across_witness :
    downAcrossIndices (gridRows 80 exampleNames5.length (maxNameLen exampleNames5))
        (gridCols 80 exampleNames5.length (maxNameLen exampleNames5))
        exampleNames5.length =
      List.range exampleNames5.length :=
  (c1_down_across exampleNames5 80 (by decide)).1

/-! ## Theorems for C9 -/

/-- C9 counterexample: five two-character names at width 80 give a 3×2 grid;
the third emitted line is `"cc  "` — the unfilled trailing cell contributes
no name, but the inter-column separator (two spaces) is still emitted after
the last filled cell, so the line carries trailing separator whitespace. -/
theorem c9_trailing_separator :
    print_down_then_across exampleNames5 80 =
      [['a', 'a', ' ', ' ', 'd', 'd'],
       ['b', 'b', ' ', ' ', 'e', 'e'],
       ['c', 'c', ' ', ' ']] ∧
    (['c', 'c', ' ', ' '] : List Char) ≠ ['c', 'c'] := by
  constructor
  · decide
  · decide

/-- C9 (amended): an unfilled trailing cell (`idx = r + c * rows ≥ n`) emits
no name and no padding entry, but the `COL_PADDING` separator spaces are
emitted for every column except the last, whether or not the cell is filled —
so a line whose last filled cell is not in the last column ends in separator
whitespace. -/
theorem c9_unfilled_cell (names : List Name) (maxlen rows cols n r c : Nat)
    (h : n ≤ r + c * rows) :
    renderDACell names maxlen rows cols n r c =
      if c < cols - 1 then List.replicate COL_PADDING ' ' else [] := by
  unfold renderDACell
  have h1 : ¬ (r + c * rows < n) := by omega
  simp [h1]

/-- Witness for `c9_unfilled_cell`: the unfilled cell (row 2, column 1) of a
3-row grid over five names with three columns — it still emits the two
separator spaces. -/
theorem c9_unfilled_cell_witness :
    renderDACell exampleNames5 2 3 3 5 2 1 =
      (if 1 < 3 - 1 then List.replicate COL_PADDING ' ' else []) :=
  c9_unfilled_cell exampleNames5 2 3 3 5 2 1 (by decide)

/-! ## Lemmas for C7 -/

theorem splitLines_cons_newline (cs : List Char) :
    splitLines ('\n' :: cs) = [] :: splitLines cs := by
  simp [splitLines]

theorem splitLines_append_newline (s : List Char) (h : '\n' ∉ s) :
    splitLines (s ++ ['\n']) = [s] := by
  induction s with
  | nil => simp [splitLines]
  | cons c cs ih =>
    have hc : ¬ (c = '\n') := fun e => h (e ▸ List.mem_cons_self c cs)
    have hcs : '\n' ∉ cs := fun m => h (List.mem_cons_of_mem _ m)
    simp [splitLines, hc, ih hcs]

theorem maxNameLen_singleton (nm : Name) (h : 0 < nm.length) :
    maxNameLen [nm] = nm.length := by
  simp only [maxNameLen, List.foldl]
  split
  · rfl
  · omega

theorem gridDA_singleton (w : Nat) (L : Nat) (h : w < L) :
    gridDA w 1 L = (1, 1) := by
  unfold gridDA
  have hcw : ¬ (L + COL_PADDING ≤ 0) := by simp [COL_PADDING]
  have hdiv : w / (L + COL_PADDING) = 0 := Nat.div_eq_of_lt (by simp [COL_PADDING]; omega)
  simp [hcw, hdiv]

/-! ## Theorems for C7 -/

/-- C7 counterexample: for the single 100-character name at width 80, the
across-then-down mode (`print_horizontal_across`) emits the name alone and
unclipped, but preceded by an empty line — the wrap test
`current_width + col_width > term_width` fires before anything has been
placed, emitting a newline first — so the output is not a single line. -/
theorem c7_extra_blank_line :
    splitLines (print_horizontal_across [List.replicate 100 'a'] 80) =
      [[], List.replicate 100 'a'] ∧
    ([[], List.replicate 100 'a'] : List (List Char)) ≠ [List.replicate 100 'a'] := by
  constructor
  · decide
  · decide

/-- C7 (amended): a single name longer than the display width is emitted
alone and without truncation in every mode; in single-column and
down-then-across modes the output is exactly the one line holding the name,
while in the across-then-down mode the name's line is preceded by one empty
line. -/
theorem c7_wide_name (nm : Name) (w : Nat) (h1 : w < nm.length)
    (h2 : '\n' ∉ nm) :
    print_simple_listing [nm] = [nm] ∧
    print_down_then_across [nm] w = [nm] ∧
    splitLines (print_horizontal_across [nm] w) = [[], nm] := by
  have hpos : 0 < nm.length := by omega
  have hL : maxNameLen [nm] = nm.length := maxNameLen_singleton nm hpos
  have hone : ([nm] : List Name).length = 1 := rfl
  have hpad : padName nm.length nm = nm := by simp [padName]
  refine ⟨rfl, ?_, ?_⟩
  · have hgrid : gridDA w 1 nm.length = (1, 1) := gridDA_singleton w nm.length h1
    simp only [print_down_then_across, hone, gridRows, gridCols, hL, hgrid]
    have hr1 : List.range 1 = [0] := by decide
    simp [hr1, renderDARow, renderDACell, padName]
  · have hwrap : 0 + (nm.length + COL_PADDING) > w := by
      simp only [COL_PADDING]
      omega
    have hcw : ¬ (nm.length + COL_PADDING ≤ 0) := by simp [COL_PADDING]
    simp only [print_horizontal_across, hone, hL, hcw, if_false, haLoop, hwrap,
      if_pos, hpad, List.append_nil, List.cons_append]
    rw [if_neg (by omega : ¬ ((1 : Nat) = 0)), splitLines_cons_newline,
      splitLines_append_newline nm h2]

/-- Witness for `c7_wide_name`: the 100-`a` name at width 80. -/
theorem c7_wide_name_witness :
    print_simple_listing [List.replicate 100 'a'] = [List.replicate 100 'a'] ∧
    print_down_then_across [List.replicate 100 'a'] 80 = [List.replicate 100 'a'] ∧
    splitLines (print_horizontal_across [List.replicate 100 'a'] 80) =
      [[], List.replicate 100 'a'] :=
  c7_wide_name (List.replicate 100 'a') 80 (by decide) (by decide)

/-! ## Theorems for C4 -/

/-- C4 counterexample: in `ls-v1.5.0.c`'s `print_long_listing` a symbolic link
(mode `0xA1FF`, i.e. `S_IFLNK | 0777`) gets leading character `'-'`, not the
`'l'` the claim prescribes. -/
theorem c4_symlink_dash :
    typeChar_v150 0xA1FF = '-' ∧ ('-' : Char) ≠ 'l' := by
  constructor
  · decide
  · decide

set_option maxRecDepth 100000 in
/-- C4 (amended): the v1.3.0 long-listing unit implements exactly the claimed
mapping `d`/`l`/`c`/`b`/`p`/`s`/`-` for every mode, while the v1.4.0/v1.5.0
units map a directory to `'d'` and every other kind — symlinks, devices,
fifos and sockets included — to `'-'`. -/
theorem c4_type_char (fmt perm : Nat) (hf : fmt < 16) (hp : perm < 512) :
    typeChar_v130 (fmt * 4096 + perm) = claimedTypeChar fmt ∧
    typeChar_v150 (fmt * 4096 + perm) = (if fmt = 4 then 'd' else '-') := by
  have h : ∀ f < 16, ∀ p < 512,
      typeChar_v130 (f * 4096 + p) = claimedTypeChar f ∧
      typeChar_v150 (f * 4096 + p) = (if f = 4 then 'd' else '-') := by decide
  exact h fmt hf perm hp

/-- Witness for `c4_type_char`: a symlink mode `0xA1FF` (`fmt = 10`,
`perm = 0o777`). -/
theorem c4_type_char_witness :
    typeChar_v130 (10 * 4096 + 511) = claimedTypeChar 10 ∧
    typeChar_v150 (10 * 4096 + 511) = (if (10 : Nat) = 4 then 'd' else '-') :=
  c4_type_char 10 511 (by decide) (by decide)

/-! ## Theorems for C5 -/

/-- C5 counterexample: when `opendir` fails, `main` of `ls-v1.5.0.c` exits
with status 0 (`read_filenames` returns 0 and `main` runs
`if (n <= 0) return 0;`), not the non-zero status the claim requires. -/
theorem c5_open_failure_exit_zero : mainExit_v150 none = 0 := by
  decide

/-- C5 (amended): only the v1.1.0 unit exits non-zero (status 1) on a
directory-open failure; the v1.5.0 unit (like v1.3.0/v1.4.0) exits 0 on every
input, the open-failure and per-entry cases included.  In all units every
successful run exits 0. -/
theorem c5_exit_codes :
    (∀ dir : Option (List Name), mainExit_v150 dir = 0) ∧
    mainExit_v110 none = 1 ∧
    (∀ stream : List Name, mainExit_v110 (some stream) = 0) := by
  refine ⟨fun dir => ?_, rfl, fun stream => rfl⟩
  cases dir <;> simp [mainExit_v150]

/-! ## Theorems for C6 -/

/-- C6 counterexample: `a.tar.bak` is a plain file (mode `0o100644`, no
execute bit) that does **not** end with any of `.tar`, `.gz`, `.zip`, `.tgz`,
yet `get_color` assigns the archive (red) tag, because the source tests
`strstr` (substring) rather than a suffix. -/
theorem c6_substring_not_suffix :
    get_color (some 0o100644) ['a', '.', 't', 'a', 'r', '.', 'b', 'a', 'k'] = .red ∧
    archiveSuffix ['a', '.', 't', 'a', 'r', '.', 'b', 'a', 'k'] = false := by
  decide

/-- C6 (amended): for an entry that is not a directory, symlink, char/block
device or socket and has no execute bit set, `get_color` assigns the archive
tag iff one of `.tar`, `.gz`, `.zip`, `.tgz` occurs as a **substring** of the
name (the `strstr` test), and otherwise the reset tag; kind-based rules
(directory, symlink, device/socket) and the execute-permission rule take
precedence over the extension rule. -/
theorem c6_color_rules (m : Nat) (name : Name) :
    (S_ISDIR m = false → S_ISLNK m = false → S_ISCHR m = false →
     S_ISBLK m = false → S_ISSOCK m = false → m &&& 0o111 = 0 →
      (get_color (some m) name = .red ↔ archiveSub name = true) ∧
      (archiveSub name = false → get_color (some m) name = .reset)) ∧
    (S_ISDIR m = true → get_color (some m) name = .blue) ∧
    (S_ISDIR m = false → S_ISLNK m = true → get_color (some m) name = .magenta) ∧
    (S_ISDIR m = false → S_ISLNK m = false →
      (S_ISCHR m || S_ISBLK m || S_ISSOCK m) = true →
      get_color (some m) name = .reverseVideo) ∧
    (S_ISDIR m = false → S_ISLNK m = false → S_ISCHR m = false →
     S_ISBLK m = false → S_ISSOCK m = false → m &&& 0o111 ≠ 0 →
      get_color (some m) name = .green) := by
  refine ⟨fun h1 h2 h3 h4 h5 h6 => ?_, fun h1 => ?_, fun h1 h2 => ?_,
    fun h1 h2 h3 => ?_, fun h1 h2 h3 h4 h5 h6 => ?_⟩
  · cases hsub : archiveSub name <;>
      simp [get_color, h1, h2, h3, h4, h5, h6, hsub]
  · simp [get_color, h1]
  · simp [get_color, h1, h2]
  · simp [get_color, h1, h2, h3]
  · simp [get_color, h1, h2, h3, h4, h5, h6]

/-- Witness for `c6_color_rules`: the plain file `x.zip` with mode
`0o100644`. -/
theorem c6_color_rules_witness :
    get_color (some 0o100644) ['x', '.', 'z', 'i', 'p'] = .red := by
  have h := (c6_color_rules 0o100644 ['x', '.', 'z', 'i', 'p']).1
    (by decide) (by decide) (by decide) (by decide) (by decide) (by decide)
  exact h.1.mpr (by decide)

/-! ## Lemmas about the sort model and the read loop -/

theorem insertCmp_perm (le : α → α → Bool) (x : α) (l : List α) :
    List.Perm (insertCmp le x l) (x :: l) := by
  induction l with
  | nil => simp [insertCmp]
  | cons y ys ih =>
    simp only [insertCmp]
    by_cases h : le x y = true
    · simp [h]
    · simp only [h, if_false]
      exact ((ih.cons y).trans (List.Perm.swap x y ys))

theorem sortCmp_perm (le : α → α → Bool) (l : List α) :
    List.Perm (sortCmp le l) l := by
  induction l with
  | nil => exact List.Perm.refl _
  | cons x xs ih => exact (insertCmp_perm le x (sortCmp le xs)).trans (ih.cons x)

theorem mem_collectLoop {s : Name} :
    ∀ (stream : List Name) (cnt : Nat), s ∈ collectLoop stream cnt →
      s ∈ stream ∧ visible s = true := by
  intro stream
  induction stream with
  | nil => intro cnt h; simp [collectLoop] at h
  | cons e rest ih =>
    intro cnt h
    simp only [collectLoop] at h
    by_cases hc : cnt < MAX_FILES
    · simp only [hc, if_true] at h
      by_cases hv : visible e = true
      · simp only [hv, if_true, List.mem_cons] at h
        rcases h with h | h
        · subst h; exact ⟨List.mem_cons_self _ _, hv⟩
        · rcases ih (cnt + 1) h with ⟨h1, h2⟩
          exact ⟨List.mem_cons_of_mem _ h1, h2⟩
      · simp only [Bool.not_eq_true] at hv
        simp only [hv, Bool.false_eq_true, if_false] at h
        rcases ih cnt h with ⟨h1, h2⟩
        exact ⟨List.mem_cons_of_mem _ h1, h2⟩
    · simp [hc] at h

theorem collectLoop_eq_take :
    ∀ (stream : List Name) (cnt : Nat),
      collectLoop stream cnt = (stream.filter visible).take (MAX_FILES - cnt) := by
  intro stream
  induction stream with
  | nil => intro cnt; simp [collectLoop]
  | cons e rest ih =>
    intro cnt
    simp only [collectLoop, List.filter]
    by_cases hc : cnt < MAX_FILES
    · simp only [hc, if_true]
      by_cases hv : visible e = true
      · have hsub : MAX_FILES - cnt = (MAX_FILES - (cnt + 1)) + 1 := by omega
        simp only [hv, if_true, hsub, List.take_succ_cons, ih (cnt + 1)]
      · simp only [Bool.not_eq_true] at hv
        simp only [hv, Bool.false_eq_true, if_false, ih cnt]
    · have hz : MAX_FILES - cnt = 0 := by omega
      simp only [hc, if_false, hz, List.take_zero]

/-! ## Theorems for C3 and C10 -/

/-- C3: every name produced by `read_filenames` is non-empty with a first
character other than `'.'`, provided every name `readdir` hands over is
non-empty (which POSIX guarantees — the C filter itself never tests for
emptiness). -/
theorem c3_no_hidden (stream : List Name)
    (h : ∀ s ∈ stream, s ≠ []) :
    ∀ s ∈ read_filenames stream, ∃ c cs, s = c :: cs ∧ c ≠ '.' := by
  intro s hs
  have hmem : s ∈ collectLoop stream 0 :=
    ((sortCmp_perm _ (collectLoop stream 0)).mem_iff).mp hs
  rcases mem_collectLoop stream 0 hmem with ⟨hin, hvis⟩
  cases s with
  | nil => exact absurd rfl (h [] hin)
  | cons c cs =>
    refine ⟨c, cs, rfl, ?_⟩
    simpa [visible] using hvis

/-- Witness for `c3_no_hidden`: the stream `["b", ".h", "a"]`. -/
theorem c3_no_hidden_witness :
    ∃ c cs, (['a'] : Name) = c :: cs ∧ c ≠ '.' :=
  c3_no_hidden [['b'], ['.', 'h'], ['a']]
    (by decide) ['a'] (by decide)

/-- C10: the read loop of `read_filenames` keeps exactly the first
`MAX_FILES` (4096) visible entries of the `readdir` stream — later entries
are dropped with no diagnostic — and the listing it returns therefore never
holds more than 4096 names. -/
theorem c10_max_files (stream : List Name) :
    collectLoop stream 0 = (stream.filter visible).take MAX_FILES ∧
    (read_filenames stream).length ≤ MAX_FILES := by
  constructor
  · simpa using collectLoop_eq_take stream 0
  · have hlen : (read_filenames stream).length = (collectLoop stream 0).length :=
      (sortCmp_perm _ (collectLoop stream 0)).length_eq
    rw [hlen, collectLoop_eq_take stream 0]
    simp

/-! ## The `-r` reversal pass (`main` of `ls-v1.4.0.c`, lines 439-445) -/

/-- One iteration body of the reversal loop:
`tmp = names[i]; names[i] = names[j]; names[j] = tmp;`. -/
def swapList (l : List α) (i j : Nat) : List α :=
  match l[i]?, l[j]? with
  | some a, some b => (l.set i b).set j a
  | _, _ => l

/-- The loop `for (i = 0; i < n / 2; i++)` swapping positions `i` and
`n - 1 - i`, with explicit fuel (the loop runs exactly `n / 2 - i` more
iterations). -/
def revLoopAux (n : Nat) : Nat → Nat → List α → List α
  | 0, _, l => l
  | fuel + 1, i, l =>
    if i < n / 2 then revLoopAux n fuel (i + 1) (swapList l i (n - 1 - i))
    else l

/-- The `-r` pass of `main`: the in-place swap loop applied to the sorted
array. -/
def revLoop (l : List α) : List α := revLoopAux l.length (l.length / 2) 0 l

/-- The sorting stage of `main` in `ls-v1.4.0.c` lines 433-437:
`qsort` with `cmp_mtime` under `-t`, else with `cmp_names` (`strcmp`). -/
def sortListing (flagT : Bool) (l : List FileEntry) : List FileEntry :=
  sortCmp
    (fun a b => decide ((if flagT then cmp_mtime a b else strcmp a.name b.name) ≤ 0)) l

theorem swapList_length (l : List α) (i j : Nat) :
    (swapList l i j).length = l.length := by
  unfold swapList
  split
  · simp [List.length_set]
  · rfl

theorem getElem?_swapList (l : List α) (i j : Nat) (hi : i < l.length)
    (hj : j < l.length) (k : Nat) :
    (swapList l i j)[k]? =
      if k = j then l[i]? else if k = i then l[j]? else l[k]? := by
  unfold swapList
  split
  · rename_i a b ha hb
    rw [List.getElem?_set, List.getElem?_set]
    simp only [List.length_set]
    by_cases hkj : k = j
    · subst hkj
      rw [if_pos rfl, if_pos hj, ha]
      simp
    · rw [if_neg (fun e => hkj e.symm), if_neg hkj]
      by_cases hki : k = i
      · subst hki
        rw [if_pos rfl, if_pos hi, if_pos rfl, hb]
      · rw [if_neg (fun e => hki e.symm), if_neg hki]
  · rename_i hnone
    exfalso
    exact hnone l[i] l[j] (List.getElem?_eq_getElem hi) (List.getElem?_eq_getElem hj)

theorem revLoopAux_length (n fuel : Nat) :
    ∀ (i : Nat) (s : List α), (revLoopAux n fuel i s).length = s.length := by
  induction fuel with
  | zero => intro i s; rfl
  | succ fuel ih =>
    intro i s
    simp only [revLoopAux]
    by_cases h : i < n / 2
    · rw [if_pos h, ih, swapList_length]
    · rw [if_neg h]

theorem revLoopAux_invariant (l₀ : List α) (n fuel : Nat) :
    ∀ (i : Nat) (s : List α), i + fuel = n / 2 → s.length = n →
      (∀ k, k < n → s[k]? = if k < i ∨ n - i ≤ k then l₀[n - 1 - k]? else l₀[k]?) →
      ∀ k, k < n → (revLoopAux n fuel i s)[k]? = l₀[n - 1 - k]? := by
  induction fuel with
  | zero =>
    intro i s hif hsl hinv k hk
    have hi : i = n / 2 := by omega
    subst hi
    show s[k]? = l₀[n - 1 - k]?
    rw [hinv k hk]
    by_cases hc : k < n / 2 ∨ n - n / 2 ≤ k
    · rw [if_pos hc]
    · rw [if_neg hc]
      have hkk : n - 1 - k = k := by omega
      rw [hkk]
  | succ fuel ih =>
    intro i s hif hsl hinv k hk
    have hi2 : i < n / 2 := by omega
    simp only [revLoopAux, if_pos hi2]
    have hi_lt : i < s.length := by omega
    have hj_lt : n - 1 - i < s.length := by omega
    refine ih (i + 1) (swapList s i (n - 1 - i)) (by omega)
      (by rw [swapList_length]; omega) ?_ k hk
    intro k2 hk2
    rw [getElem?_swapList s i (n - 1 - i) hi_lt hj_lt k2]
    by_cases hkj : k2 = n - 1 - i
    · rw [if_pos hkj]
      have hci : ¬ (i < i ∨ n - i ≤ i) := by omega
      have h2 := hinv i (by omega)
      rw [if_neg hci] at h2
      rw [h2, if_pos (by omega : k2 < i + 1 ∨ n - (i + 1) ≤ k2)]
      have he : n - 1 - k2 = i := by omega
      rw [he]
    · rw [if_neg hkj]
      by_cases hki : k2 = i
      · rw [if_pos hki]
        have hcj : ¬ (n - 1 - i < i ∨ n - i ≤ n - 1 - i) := by omega
        have h3 := hinv (n - 1 - i) (by omega)
        rw [if_neg hcj] at h3
        rw [h3, if_pos (by omega : k2 < i + 1 ∨ n - (i + 1) ≤ k2)]
        have he : n - 1 - k2 = n - 1 - i := by omega
        rw [he]
      · rw [if_neg hki, hinv k2 hk2]
        by_cases hc : k2 < i ∨ n - i ≤ k2
        · rw [if_pos hc, if_pos (by omega : k2 < i + 1 ∨ n - (i + 1) ≤ k2)]
        · rw [if_neg hc, if_neg (by omega : ¬ (k2 < i + 1 ∨ n - (i + 1) ≤ k2))]

theorem revLoop_eq_reverse (l : List α) : revLoop l = l.reverse := by
  unfold revLoop
  apply List.ext_getElem?
  intro k
  by_cases hk : k < l.length
  · rw [List.getElem?_reverse hk]
    exact revLoopAux_invariant l l.length (l.length / 2) 0 l (by omega) rfl
      (fun k2 hk2 => by rw [if_neg (by omega)]) k hk
  · rw [List.getElem?_eq_none
        (show (revLoopAux l.length (l.length / 2) 0 l).length ≤ k by
          rw [revLoopAux_length]; omega),
      List.getElem?_eq_none (show l.reverse.length ≤ k by simp; omega)]

/-! ## Theorem for C8 -/

/-- C8: for either sort key (`-t` or the default name sort) and any listing,
running the `-r` swap-loop reversal twice over the sorted result restores it:
the pass is an involution on the array (it equals `List.reverse`, and the
code applies it after sorting rather than flipping the comparator). -/
theorem c8_reverse_involution (flagT : Bool) (l : List FileEntry) :
    revLoop (revLoop (sortListing flagT l)) = sortListing flagT l := by
  rw [revLoop_eq_reverse, revLoop_eq_reverse, List.reverse_reverse]

/-! ## Theorem for C2 -/

/-- C2 (code bug): `cmp_mtime` returns the `time_t` difference through its
`int` return type.  For entries `b` (mtime 0, the epoch) and `a`
(mtime `2^31`, i.e. 19 Jan 2038), the difference `2^31` narrows to `-2^31`:
the comparator reports the **older** entry as smaller, so qsort orders it
first — contradicting the claim (and the source's own `// Newest first`
comment), which require the entry with the later mtime to precede. -/
theorem c2_mtime_truncation :
    cmp_mtime ⟨['b'], 0⟩ ⟨['a'], 2 ^ 31⟩ = -(2 ^ 31) ∧
    cmp_mtime ⟨['b'], 0⟩ ⟨['a'], 2 ^ 31⟩ < 0 := by
  decide

end Ls
